import Mathlib

/-!
# Verification of homebridge-loxone-proxy core subsystems

Shallow embedding of the accessory-naming subsystem (`LoxonePlatform.generateUniqueName`)
and the camera prebuffer/recording pipeline (`PreBuffer.handleAtom`,
`RecordingDelegate.parseFragmentedMP4` / `consumeFragments` /
`handleRecordingStreamRequest` / `closeRecordingStream`,
`streamingDelegate.stopStream`), together with theorems settling the
specification claims about them.

Modelling conventions:
* JavaScript strings are `List Char`; byte buffers are `List Nat` (each < 256 in
  practice); timestamps (`Date.now()`) are `Int` milliseconds.
* The Unicode character classes `\p{L}`/`\p{N}`/`\s` of the sanitizer regexes are
  modelled by their ASCII cores (`Char.isAlpha`/`Char.isDigit`/space-tab-nl-cr);
  the regex `.` is modelled as matching any character (device names contain no
  newlines).
* JS `Map`/`Set` objects are association lists / lists (keys are unique in every
  reachable state, so list append models `set`/`add` on this code path), or
  functions `key → Option value` for registries where only get/set/delete/has
  are used.
* Async generators are modelled by the (finite) list of values they yield, with
  explicit termination status where the distinction between normal completion
  and a thrown error matters.
-/

namespace LoxoneProxy

/-! ## Name sanitizer: the `clean` helper of `generateUniqueName`

Source (`LoxonePlatform.generateUniqueName`):
```
const clean = (s) => s
  .replace(/\((.*?)\)/g, '$1')            // "(MH06)" → "MH06"
  .replace(/[^\p{L}\p{N}\s']/gu, '')      // letters, digits, space, apostrophe
  .replace(/\s+/g, ' ')                   // collapse spaces
  .trim();
```
-/

/-- ASCII core of the regex whitespace class `\s`. -/
def isWsChar (c : Char) : Bool :=
  c == ' ' || c == '\t' || c == '\n' || c == '\r'

/-- Character class kept by `replace(/[^\p{L}\p{N}\s']/gu, '')`:
letters, digits, whitespace and the apostrophe. -/
def isNameChar (c : Char) : Bool :=
  c.isAlpha || c.isDigit || isWsChar c || c == '\''

/-- Split a character list at the first `')'`: returns the part before it and
the part after it.  This is the extent of the lazy group `(.*?)` of the regex
`\((.*?)\)`, which stops at the first closing parenthesis. -/
def splitAtRparen : List Char → Option (List Char × List Char)
  | [] => none
  | c :: rest =>
    if c = ')' then some ([], rest)
    else
      match splitAtRparen rest with
      | some (inner, after) => some (c :: inner, after)
      | none => none

/-- Fuelled scanner for `replace(/\((.*?)\)/g, '$1')`: each leftmost `(`
with a later `)` is removed together with that first `)`, the text between
them is kept, and scanning resumes after the match.  Fuel
`(length of the input)` always suffices. -/
def unwrapCore : Nat → List Char → List Char
  | 0, l => l
  | _fuel + 1, [] => []
  | fuel + 1, c :: rest =>
    if c = '(' then
      match splitAtRparen rest with
      | some (inner, after) => inner ++ unwrapCore fuel after
      | none => c :: rest
    else
      c :: unwrapCore fuel rest

/-- One pass removing a duplicate space after another space, i.e. the
collapsing part of `replace(/\s+/g, ' ')` once every whitespace character has
been mapped to `' '`. -/
def squeezeSpaces : List Char → List Char
  | [] => []
  | [c] => [c]
  | a :: b :: rest =>
    if a = ' ' ∧ b = ' ' then squeezeSpaces (b :: rest)
    else a :: squeezeSpaces (b :: rest)

/-- `replace(/\s+/g, ' ')`: every maximal run of whitespace becomes one `' '`. -/
def collapseWs (l : List Char) : List Char :=
  squeezeSpaces (l.map fun c => if isWsChar c then ' ' else c)

/-- `String.prototype.trim` after whitespace collapsing (only `' '` can remain
at the edges). -/
def trimSpaces (l : List Char) : List Char :=
  ((l.dropWhile (· == ' ')).reverse.dropWhile (· == ' ')).reverse

/-- The `clean` arrow function of `generateUniqueName`. -/
def cleanName (s : String) : List Char :=
  trimSpaces (collapseWs ((unwrapCore s.data.length s.data).filter isNameChar))

/-- JS falsy-string defaulting: `room || 'Unknown'`. -/
def orDefault (s fallback : String) : String :=
  if s = "" then fallback else s

/-! ## Decimal rendering of the collision counter (template `${counter}`) -/

/-- A single decimal digit character. -/
def decChar : Nat → Char
  | 0 => '0' | 1 => '1' | 2 => '2' | 3 => '3' | 4 => '4'
  | 5 => '5' | 6 => '6' | 7 => '7' | 8 => '8' | _ => '9'

/-- Fuelled most-significant-first decimal digits of `n` (empty for `0`). -/
def decDigitsCore : Nat → Nat → List Char
  | 0, _ => []
  | fuel + 1, n =>
    if n = 0 then []
    else decDigitsCore fuel (n / 10) ++ [decChar (n % 10)]

/-- Decimal rendering of a natural number, as JS string interpolation does. -/
def natToChars (n : Nat) : List Char :=
  if n = 0 then ['0'] else decDigitsCore (n + 1) n

/-! ## The `generateUniqueName` method of `LoxonePlatform` -/

/-- The candidate names tried by the collision loop: `cand b 0` is the
undecorated base name, `cand b k` (`k ≥ 1`) is `` `${baseName} ${k}` ``. -/
def cand (b : List Char) : Nat → List Char
  | 0 => b
  | k + 1 => b ++ ' ' :: natToChars (k + 1)

/-- The collision loop
`while (usedNames.has(finalName)) finalName = baseName + ' ' + counter++;`:
starting from candidate index `k`, return the first candidate not in `used`.
Fuel `used.length + 1` always suffices (`tryFrom_spec`). -/
def tryFrom (used : List (List Char)) (b : List Char) : Nat → Nat → List Char
  | 0, k => cand b k
  | fuel + 1, k =>
    if cand b k ∈ used then tryFrom used b fuel (k + 1) else cand b k

/-- Session-scoped naming state of `LoxonePlatform`: the `usedNames` set and
the `accessoryNameMap` (uuid → assigned name), both cleared at the start of a
mapping session. -/
structure GenState where
  usedNames : List (List Char)
  accessoryNameMap : List (String × List Char)
  deriving DecidableEq, Repr

/-- The state right after `usedNames.clear(); accessoryNameMap.clear()`. -/
def freshSession : GenState := ⟨[], []⟩

/-- `Map.prototype.get` on an association list. -/
def lookupA {β : Type} : List (String × β) → String → Option β
  | [], _ => none
  | (k, v) :: t, key => if k = key then some v else lookupA t key

/-- `Map.prototype.set` on an association list. -/
def setA {β : Type} : List (String × β) → String → β → List (String × β)
  | [], k, v => [(k, v)]
  | (k', v') :: t, k, v =>
    if k' = k then (k, v) :: t else (k', v') :: setA t k v

/-- The sanitize-and-room-prefix part of `generateUniqueName`:
```
const cleanRoom = clean(room || 'Unknown');
const cleanBase = clean(base || 'Unnamed');
const alreadyPrefixed =
  cleanBase.toLowerCase().startsWith(cleanRoom.toLowerCase()) ||
  cleanBase.toLowerCase().startsWith(cleanRoom.toLowerCase() + ' ');
const baseName = alreadyPrefixed ? cleanBase : `${cleanRoom} ${cleanBase}`;
```
-/
def mkBaseName (room base : String) : List Char :=
  let cleanRoom := cleanName (orDefault room "Unknown")
  let cleanBase := cleanName (orDefault base "Unnamed")
  let lr := cleanRoom.map Char.toLower
  let lb := cleanBase.map Char.toLower
  if lr.isPrefixOf lb || (lr ++ [' ']).isPrefixOf lb then cleanBase
  else cleanRoom ++ ' ' :: cleanBase

/-- `LoxonePlatform.generateUniqueName(room, base, uuid?, isSubItem = false)`.
Returns the resolved name together with the updated session state.  The
`uuid &&` truthiness guards are modelled by discarding an empty-string uuid. -/
def generateUniqueName (s : GenState) (room base : String)
    (uuid : Option String) (isSubItem : Bool) : List Char × GenState :=
  let baseName := mkBaseName room base
  if isSubItem then (baseName, s)
  else
    let effUuid : Option String :=
      match uuid with
      | some u => if u = "" then none else some u
      | none => none
    match effUuid with
    | some u =>
      match lookupA s.accessoryNameMap u with
      | some n => (n, s)
      | none =>
        let finalName := tryFrom s.usedNames baseName (s.usedNames.length + 1) 0
        (finalName, ⟨s.usedNames ++ [finalName], setA s.accessoryNameMap u finalName⟩)
    | none =>
      let finalName := tryFrom s.usedNames baseName (s.usedNames.length + 1) 0
      (finalName, ⟨s.usedNames ++ [finalName], s.accessoryNameMap⟩)

/-- Resolve a list of identity keys in order, all with the same `room`/`base`
arguments, as one mapping pass does for identically-named devices. -/
def resolveSeq (room base : String) : List String → GenState → List (List Char) × GenState
  | [], s => ([], s)
  | u :: us, s =>
    let p := generateUniqueName s room base (some u) false
    let q := resolveSeq room base us p.2
    (p.1 :: q.1, q.2)

/-! ## Properties of the decimal rendering -/

theorem decDigitsCore_succ (fuel n : Nat) :
    decDigitsCore (fuel + 1) n =
      if n = 0 then [] else decDigitsCore fuel (n / 10) ++ [decChar (n % 10)] := rfl

theorem decDigitsCore_fuel {f g n : Nat} (hf : n ≤ f) (hg : n ≤ g) :
    decDigitsCore f n = decDigitsCore g n := by
  induction f generalizing g n with
  | zero =>
    interval_cases n
    cases g <;> simp [decDigitsCore]
  | succ f ih =>
    cases g with
    | zero =>
      interval_cases n
      simp [decDigitsCore]
    | succ g =>
      by_cases hn : n = 0
      · subst hn; simp [decDigitsCore_succ]
      · have hlt : n / 10 < n := Nat.div_lt_self (Nat.pos_of_ne_zero hn) (by norm_num)
        rw [decDigitsCore_succ, decDigitsCore_succ, if_neg hn, if_neg hn,
          ih (g := g) (n := n / 10) (by omega) (by omega)]

theorem natToChars_eq_core {n : Nat} (hn : n ≠ 0) :
    natToChars n = decDigitsCore (n + 1) n := by
  simp [natToChars, hn]

theorem natToChars_shift {n : Nat} (hn : n ≠ 0) :
    natToChars n = decDigitsCore (n / 10 + 1) (n / 10) ++ [decChar (n % 10)] := by
  have hlt : n / 10 < n := Nat.div_lt_self (Nat.pos_of_ne_zero hn) (by norm_num)
  rw [natToChars_eq_core hn, decDigitsCore_succ, if_neg hn,
    decDigitsCore_fuel (f := n) (g := n / 10 + 1) (by omega) (by omega)]

theorem decChar_injOn : ∀ a < 10, ∀ b < 10, decChar a = decChar b → a = b := by
  decide

theorem natToChars_injective {n m : Nat} (hn : n ≠ 0) (hm : m ≠ 0)
    (h : natToChars n = natToChars m) : n = m := by
  induction n using Nat.strong_induction_on generalizing m with
  | _ n ih =>
    rw [natToChars_shift hn, natToChars_shift hm] at h
    have h' := congrArg List.reverse h
    simp only [List.reverse_append, List.reverse_singleton, List.singleton_append] at h'
    have hhead : decChar (n % 10) = decChar (m % 10) := by
      exact (List.cons.injEq _ _ _ _ ▸ h').1
    have htail : decDigitsCore (n / 10 + 1) (n / 10) = decDigitsCore (m / 10 + 1) (m / 10) := by
      have := (List.cons.injEq _ _ _ _ ▸ h').2
      have := congrArg List.reverse this
      simpa using this
    have hmod : n % 10 = m % 10 :=
      decChar_injOn _ (Nat.mod_lt _ (by norm_num)) _ (Nat.mod_lt _ (by norm_num)) hhead
    by_cases hz : n / 10 = 0
    · by_cases hz' : m / 10 = 0
      · omega
      · rw [hz] at htail
        simp [decDigitsCore_succ, hz'] at htail
    · by_cases hz' : m / 10 = 0
      · rw [hz'] at htail
        simp [decDigitsCore_succ, hz] at htail
      · have hrec : natToChars (n / 10) = natToChars (m / 10) := by
          rw [natToChars_eq_core hz, natToChars_eq_core hz']
          exact htail
        have hlt : n / 10 < n := Nat.div_lt_self (Nat.pos_of_ne_zero hn) (by norm_num)
        have := ih (n / 10) hlt hz hz' hrec
        omega

theorem natToChars_ne_nil {n : Nat} (hn : n ≠ 0) : natToChars n ≠ [] := by
  rw [natToChars_shift hn]
  simp

/-! ## Properties of the collision loop -/

theorem cand_injective (b : List Char) : Function.Injective (cand b) := by
  intro j k h
  match j, k with
  | 0, 0 => rfl
  | 0, k + 1 =>
    exfalso
    have := congrArg List.length h
    simp [cand] at this
  | j + 1, 0 =>
    exfalso
    have := congrArg List.length h
    simp [cand] at this
  | j + 1, k + 1 =>
    simp only [cand] at h
    have h' := List.append_cancel_left h
    have h'' : natToChars (j + 1) = natToChars (k + 1) := by
      exact (List.cons.injEq _ _ _ _ ▸ h').2
    have := natToChars_injective (by omega) (by omega) h''
    omega

theorem tryFrom_is_cand (used : List (List Char)) (b : List Char) :
    ∀ fuel k, ∃ j, k ≤ j ∧ tryFrom used b fuel k = cand b j := by
  intro fuel
  induction fuel with
  | zero => intro k; exact ⟨k, le_refl _, rfl⟩
  | succ fuel ih =>
    intro k
    by_cases h : cand b k ∈ used
    · obtain ⟨j, hj, he⟩ := ih (k + 1)
      exact ⟨j, by omega, by simp [tryFrom, if_pos h, he]⟩
    · exact ⟨k, le_refl _, by simp [tryFrom, if_neg h]⟩

theorem tryFrom_not_mem_of_ex (used : List (List Char)) (b : List Char) :
    ∀ fuel k, (∃ j, k ≤ j ∧ j < k + fuel ∧ cand b j ∉ used) →
      tryFrom used b fuel k ∉ used := by
  intro fuel
  induction fuel with
  | zero =>
    intro k ⟨j, hj1, hj2, _⟩
    omega
  | succ fuel ih =>
    intro k ⟨j, hj1, hj2, hj3⟩
    by_cases h : cand b k ∈ used
    · simp only [tryFrom, if_pos h]
      apply ih (k + 1)
      have hjk : j ≠ k := fun he => hj3 (he ▸ h)
      exact ⟨j, by omega, by omega, hj3⟩
    · simpa [tryFrom, if_neg h] using h

theorem exists_cand_not_mem (used : List (List Char)) (b : List Char) :
    ∃ j, j ≤ used.length ∧ cand b j ∉ used := by
  by_contra hall
  push_neg at hall
  have hmem : ∀ j ≤ used.length, cand b j ∈ used := hall
  set l : List (List Char) := (List.range (used.length + 1)).map (cand b) with hl
  have hnd : l.Nodup := (List.nodup_range _).map (cand_injective b)
  have hsub : l ⊆ used := by
    intro x hx
    rw [hl, List.mem_map] at hx
    obtain ⟨j, hj, rfl⟩ := hx
    exact hmem j (by simpa [Nat.lt_succ_iff] using List.mem_range.mp hj)
  have hcard : l.length ≤ used.length := by
    calc l.length = l.toFinset.card := (List.toFinset_card_of_nodup hnd).symm
    _ ≤ used.toFinset.card := by
        apply Finset.card_le_card
        intro x hx
        rw [List.mem_toFinset] at hx ⊢
        exact hsub hx
    _ ≤ used.length := List.toFinset_card_le used
  simp [hl] at hcard

/-- The collision loop, run with its actual fuel, returns a name that is not
yet in the issued-name set. -/
theorem tryFrom_spec (used : List (List Char)) (b : List Char) :
    tryFrom used b (used.length + 1) 0 ∉ used := by
  apply tryFrom_not_mem_of_ex
  obtain ⟨j, hj, hnm⟩ := exists_cand_not_mem used b
  exact ⟨j, by omega, by omega, hnm⟩

theorem tryFrom_eq_of_least (used : List (List Char)) (b : List Char) :
    ∀ fuel j k, j ≤ k → (∀ i, j ≤ i → i < k → cand b i ∈ used) →
      cand b k ∉ used → k - j < fuel → tryFrom used b fuel j = cand b k := by
  intro fuel
  induction fuel with
  | zero => intro j k _ _ _ h; omega
  | succ fuel ih =>
    intro j k hjk hmem hnm hlt
    by_cases hje : j = k
    · subst hje
      simp [tryFrom, if_neg hnm]
    · have hj : cand b j ∈ used := hmem j (le_refl _) (by omega)
      simp only [tryFrom, if_pos hj]
      exact ih (j + 1) k (by omega) (fun i h1 h2 => hmem i (by omega) h2) hnm (by omega)

/-! ## Association-list lemmas -/

theorem lookupA_setA {β : Type} (m : List (String × β)) (k key : String) (v : β) :
    lookupA (setA m k v) key = if k = key then some v else lookupA m key := by
  induction m with
  | nil => simp [setA, lookupA]
  | cons p t ih =>
    obtain ⟨k', v'⟩ := p
    by_cases he : k' = k
    · subst he
      by_cases hk : k' = key <;> simp [setA, lookupA, hk]
    · by_cases hk : k' = key
      · subst hk
        have hk2 : ¬(k = k') := fun h => he h.symm
        simp [setA, lookupA, he, hk2]
      · simp [setA, lookupA, he, hk, ih]

/-! ## Step lemmas for `generateUniqueName` -/

/-- Unfolding of a top-level call whose uuid has not been resolved yet. -/
theorem gen_fresh (s : GenState) (room base u : String) (hu : u ≠ "")
    (h : lookupA s.accessoryNameMap u = none) :
    generateUniqueName s room base (some u) false =
      (tryFrom s.usedNames (mkBaseName room base) (s.usedNames.length + 1) 0,
       ⟨s.usedNames ++ [tryFrom s.usedNames (mkBaseName room base) (s.usedNames.length + 1) 0],
        setA s.accessoryNameMap u
          (tryFrom s.usedNames (mkBaseName room base) (s.usedNames.length + 1) 0)⟩) := by
  simp [generateUniqueName, hu, h]

/-- Unfolding of a top-level call whose uuid is already in the identity map. -/
theorem gen_hit (s : GenState) (room base u : String) (n : List Char) (hu : u ≠ "")
    (h : lookupA s.accessoryNameMap u = some n) :
    generateUniqueName s room base (some u) false = (n, s) := by
  simp [generateUniqueName, hu, h]

/-- An existing uuid → name binding survives any later call. -/
theorem gen_map_mono (s : GenState) (room base : String) (uuid : Option String)
    (isSub : Bool) (u : String) (n : List Char)
    (h : lookupA s.accessoryNameMap u = some n) :
    lookupA ((generateUniqueName s room base uuid isSub).2).accessoryNameMap u = some n := by
  cases isSub with
  | true => simpa [generateUniqueName] using h
  | false =>
    cases uuid with
    | none => simpa [generateUniqueName] using h
    | some u' =>
      by_cases hu' : u' = ""
      · simpa [generateUniqueName, hu'] using h
      · cases hl : lookupA s.accessoryNameMap u' with
        | some m => simpa [generateUniqueName, hu', hl] using h
        | none =>
          have hne : ¬(u' = u) := fun he => by rw [he, h] at hl; exact Option.noConfusion hl
          simp [generateUniqueName, hu', hl, lookupA_setA, hne, h]

/-- Running a same-`room`/`base` resolution sequence: if the issued-name set
holds exactly the first `j` candidate names, the sequence hands out the next
candidates in order. -/
theorem resolveSeq_from (room base : String) :
    ∀ (us : List String) (s : GenState) (j : Nat),
      s.usedNames = (List.range j).map (cand (mkBaseName room base)) →
      (∀ u ∈ us, u ≠ "" ∧ lookupA s.accessoryNameMap u = none) →
      us.Nodup →
      (resolveSeq room base us s).1 =
        (List.range' j us.length).map (cand (mkBaseName room base)) ∧
      (resolveSeq room base us s).2.usedNames =
        (List.range (j + us.length)).map (cand (mkBaseName room base)) := by
  intro us
  induction us with
  | nil =>
    intro s j hused _ _
    refine ⟨by simp [resolveSeq], ?_⟩
    simpa [resolveSeq] using hused
  | cons u us ih =>
    intro s j hused hall hnd
    have hu : u ≠ "" := (hall u (List.mem_cons_self u us)).1
    have hfresh : lookupA s.accessoryNameMap u = none := (hall u (List.mem_cons_self u us)).2
    have hlen : s.usedNames.length = j := by rw [hused]; simp
    have hmem : ∀ i, 0 ≤ i → i < j → cand (mkBaseName room base) i ∈ s.usedNames := by
      intro i _ hij
      rw [hused]
      exact List.mem_map.mpr ⟨i, List.mem_range.mpr hij, rfl⟩
    have hnm : cand (mkBaseName room base) j ∉ s.usedNames := by
      rw [hused]
      intro hmem'
      obtain ⟨i, hi, heq⟩ := List.mem_map.mp hmem'
      rw [cand_injective _ heq] at hi
      exact absurd (List.mem_range.mp hi) (lt_irrefl j)
    have hname : tryFrom s.usedNames (mkBaseName room base) (s.usedNames.length + 1) 0 =
        cand (mkBaseName room base) j := by
      apply tryFrom_eq_of_least s.usedNames (mkBaseName room base) (s.usedNames.length + 1)
        0 j (Nat.zero_le j) (fun i h1 h2 => hmem i h1 h2) hnm
      omega
    have hstep := gen_fresh s room base u hu hfresh
    rw [hname] at hstep
    have hused' :
        (s.usedNames ++ [cand (mkBaseName room base) j]) =
          (List.range (j + 1)).map (cand (mkBaseName room base)) := by
      rw [hused, List.range_succ, List.map_append, List.map_singleton]
    have htail := ih ⟨s.usedNames ++ [cand (mkBaseName room base) j],
        setA s.accessoryNameMap u (cand (mkBaseName room base) j)⟩ (j + 1) hused'
      (by
        intro u' hu'
        refine ⟨(hall u' (List.mem_cons_of_mem u hu')).1, ?_⟩
        have hneq : ¬(u = u') := fun he => (List.nodup_cons.mp hnd).1 (he ▸ hu')
        rw [lookupA_setA, if_neg hneq]
        exact (hall u' (List.mem_cons_of_mem u hu')).2)
      (List.nodup_cons.mp hnd).2
    refine ⟨?_, ?_⟩
    · show (generateUniqueName s room base (some u) false).1 ::
        (resolveSeq room base us (generateUniqueName s room base (some u) false).2).1 = _
      rw [hstep]
      simp only [List.length_cons, List.range'_succ, List.map_cons]
      exact congrArg _ htail.1
    · show (resolveSeq room base us (generateUniqueName s room base (some u) false).2).2.usedNames = _
      rw [hstep]
      have := htail.2
      rw [this]
      congr 2
      simp only [List.length_cons]
      omega

/-- **C1** (amended).  In one mapping session, identity keys that resolve to the
same room-prefixed base name receive pairwise-distinct names: the first-seen
key gets the undecorated base name, and the k-th later colliding key gets the
suffix `" k"` — the collision counter starts at 1 (`" 1"`, `" 2"`, …), not at
`" 2"` as claimed.  Moreover every freshly minted name avoids the entire set of
already-issued names, and is recorded into it. -/
theorem c1_unique_name_suffix_allocation
    (room base : String) (uuids : List String)
    (hnd : uuids.Nodup) (hne : ∀ u ∈ uuids, u ≠ "") :
    (resolveSeq room base uuids freshSession).1 =
      (List.range uuids.length).map (cand (mkBaseName room base)) ∧
    ∀ (s : GenState) (r b u : String), u ≠ "" →
      lookupA s.accessoryNameMap u = none →
      (generateUniqueName s r b (some u) false).1 ∉ s.usedNames ∧
      (generateUniqueName s r b (some u) false).2.usedNames =
        s.usedNames ++ [(generateUniqueName s r b (some u) false).1] := by
  constructor
  · have h := (resolveSeq_from room base uuids freshSession 0 (by simp [freshSession])
      (fun u hu => ⟨hne u hu, by simp [freshSession, lookupA]⟩) hnd).1
    rw [h, ← List.range_eq_range']
  · intro s r b u hu hf
    rw [gen_fresh s r b u hu hf]
    exact ⟨tryFrom_spec _ _, rfl⟩

/-- **C1 counterexample.**  Two distinct identity keys with the identical
room/base (`"Kitchen"`, `"Lamp"`) resolved from a fresh session: the second
key receives `"Kitchen Lamp 1"`, not `"Kitchen Lamp 2"` as the claim's
suffix enumeration (`" 2"`, `" 3"`, …) requires. -/
theorem c1_counterexample :
    (resolveSeq "Kitchen" "Lamp" ["u1", "u2"] freshSession).1 =
      ["Kitchen Lamp".data, "Kitchen Lamp 1".data] ∧
    (resolveSeq "Kitchen" "Lamp" ["u1", "u2"] freshSession).1 ≠
      ["Kitchen Lamp".data, "Kitchen Lamp 2".data] := by
  decide

theorem c1_witness :
    (resolveSeq "Kitchen" "Lamp" ["a", "b"] freshSession).1 =
      (List.range 2).map (cand (mkBaseName "Kitchen" "Lamp")) :=
  (c1_unique_name_suffix_allocation "Kitchen" "Lamp" ["a", "b"] (by decide)
    (by decide)).1

/-- **C2.**  Once an identity key is bound in the session's identity map, every
later top-level call with that key returns the stored name unchanged — whatever
`room`/`base` arguments are passed — and no later call (any arguments, any
path) ever removes or overwrites the binding. -/
theorem c2_name_stability (s : GenState) (u : String) (n : List Char)
    (hu : u ≠ "") (h : lookupA s.accessoryNameMap u = some n) :
    (∀ room base : String, generateUniqueName s room base (some u) false = (n, s)) ∧
    (∀ (room base : String) (uuid : Option String) (isSub : Bool),
      lookupA ((generateUniqueName s room base uuid isSub).2).accessoryNameMap u = some n) := by
  refine ⟨fun room base => gen_hit s room base u n hu h, ?_⟩
  intro room base uuid isSub
  exact gen_map_mono s room base uuid isSub u n h

theorem c2_witness :
    generateUniqueName ⟨["Hall Light".data], [("dev-1", "Hall Light".data)]⟩
      "Kitchen" "Other" (some "dev-1") false =
      ("Hall Light".data, ⟨["Hall Light".data], [("dev-1", "Hall Light".data)]⟩) :=
  (c2_name_stability ⟨["Hall Light".data], [("dev-1", "Hall Light".data)]⟩
    "dev-1" "Hall Light".data (by decide) (by decide)).1 "Kitchen" "Other"

/-! ## Character-level facts about the sanitizer -/

theorem mem_squeezeSpaces : ∀ (l : List Char) (c : Char), c ∈ squeezeSpaces l → c ∈ l
  | [], c, h => by simp [squeezeSpaces] at h
  | [a], c, h => by simpa [squeezeSpaces] using h
  | a :: b :: rest, c, h => by
    by_cases hab : a = ' ' ∧ b = ' '
    · rw [squeezeSpaces, if_pos hab] at h
      exact List.mem_cons_of_mem a (mem_squeezeSpaces (b :: rest) c h)
    · rw [squeezeSpaces, if_neg hab] at h
      rcases List.mem_cons.mp h with h | h
      · exact h ▸ List.mem_cons_self _ _
      · exact List.mem_cons_of_mem a (mem_squeezeSpaces (b :: rest) c h)

theorem mem_collapseWs (l : List Char) (c : Char) (h : c ∈ collapseWs l) :
    c = ' ' ∨ c ∈ l := by
  have h' := mem_squeezeSpaces _ _ h
  rw [List.mem_map] at h'
  obtain ⟨d, hd, he⟩ := h'
  by_cases hws : isWsChar d = true
  · left; rw [← he, if_pos hws]
  · right; rw [← he, if_neg hws]; exact hd

theorem mem_dropWhileSp (p : Char → Bool) :
    ∀ (l : List Char) (c : Char), c ∈ l.dropWhile p → c ∈ l
  | [], _, h => by simp at h
  | a :: rest, c, h => by
    by_cases ha : p a = true
    · rw [List.dropWhile_cons, if_pos ha] at h
      exact List.mem_cons_of_mem a (mem_dropWhileSp p rest c h)
    · rw [List.dropWhile_cons, if_neg ha] at h
      exact h

theorem mem_trimSpaces (l : List Char) (c : Char) (h : c ∈ trimSpaces l) : c ∈ l := by
  unfold trimSpaces at h
  rw [List.mem_reverse] at h
  have h1 := mem_dropWhileSp _ _ _ h
  rw [List.mem_reverse] at h1
  exact mem_dropWhileSp _ _ _ h1

/-- Every character of a sanitized name is a space or an allowed name
character; in particular parentheses are gone. -/
theorem mem_cleanName (s : String) (c : Char) (h : c ∈ cleanName s) :
    c = ' ' ∨ isNameChar c = true := by
  have h1 := mem_trimSpaces _ _ h
  rcases mem_collapseWs _ _ h1 with h2 | h2
  · exact Or.inl h2
  · exact Or.inr (List.of_mem_filter h2)

theorem cleanName_no_paren (s : String) : '(' ∉ cleanName s ∧ ')' ∉ cleanName s := by
  constructor <;>
    · intro h
      rcases mem_cleanName _ _ h with h' | h' <;> simp [isNameChar, isWsChar] at h'

theorem mem_mkBaseName (room base : String) (c : Char) (h : c ∈ mkBaseName room base) :
    c = ' ' ∨ isNameChar c = true := by
  unfold mkBaseName at h
  by_cases hc : (((cleanName (orDefault room "Unknown")).map Char.toLower).isPrefixOf
      ((cleanName (orDefault base "Unnamed")).map Char.toLower) ||
      (((cleanName (orDefault room "Unknown")).map Char.toLower) ++ [' ']).isPrefixOf
      ((cleanName (orDefault base "Unnamed")).map Char.toLower)) = true
  · rw [if_pos hc] at h
    exact mem_cleanName _ _ h
  · rw [if_neg hc] at h
    rcases List.mem_append.mp h with h' | h'
    · exact mem_cleanName _ _ h'
    · rcases List.mem_cons.mp h' with h'' | h''
      · exact Or.inl h''
      · exact mem_cleanName _ _ h''

theorem decChar_no_paren : ∀ d : Nat, decChar d ≠ '(' ∧ decChar d ≠ ')' := by
  intro d
  rcases d with _ | _ | _ | _ | _ | _ | _ | _ | _ | d <;> simp [decChar]

theorem mem_decDigitsCore : ∀ (fuel n : Nat) (c : Char),
    c ∈ decDigitsCore fuel n → ∃ d, c = decChar d
  | 0, n, c, h => by simp [decDigitsCore] at h
  | fuel + 1, n, c, h => by
    by_cases hn : n = 0
    · rw [decDigitsCore_succ, if_pos hn] at h
      simp at h
    · rw [decDigitsCore_succ, if_neg hn] at h
      rcases List.mem_append.mp h with h' | h'
      · exact mem_decDigitsCore fuel (n / 10) c h'
      · exact ⟨n % 10, by simpa using h'⟩

theorem natToChars_no_paren (n : Nat) : '(' ∉ natToChars n ∧ ')' ∉ natToChars n := by
  by_cases hn : n = 0
  · subst hn; simp [natToChars]
  · rw [natToChars_eq_core hn]
    constructor <;>
      · intro h
        obtain ⟨d, hd⟩ := mem_decDigitsCore _ _ _ h
        rcases decChar_no_paren d with ⟨h1, h2⟩
        first
          | exact h1 hd.symm
          | exact h2 hd.symm

theorem cand_no_paren (b : List Char) (k : Nat)
    (hb : '(' ∉ b ∧ ')' ∉ b) : '(' ∉ cand b k ∧ ')' ∉ cand b k := by
  cases k with
  | zero => exact hb
  | succ k =>
    constructor <;>
      · intro h
        rcases List.mem_append.mp h with h' | h'
        · first
            | exact hb.1 h'
            | exact hb.2 h'
        · rcases List.mem_cons.mp h' with h'' | h''
          · exact absurd h'' (by decide)
          · first
            | exact (natToChars_no_paren (k + 1)).1 h''
            | exact (natToChars_no_paren (k + 1)).2 h''

theorem mkBaseName_no_paren (room base : String) :
    '(' ∉ mkBaseName room base ∧ ')' ∉ mkBaseName room base := by
  constructor <;>
    · intro h
      rcases mem_mkBaseName _ _ _ h with h' | h' <;>
        simp [isNameChar, isWsChar] at h'

/-- On every path that does not read the identity map, the resolved name is
the computed base name with an optional numeric suffix. -/
theorem gen_shape (s : GenState) (room base : String) (uuid : Option String)
    (isSub : Bool)
    (hfresh : ∀ u, uuid = some u → lookupA s.accessoryNameMap u = none) :
    ∃ k, (generateUniqueName s room base uuid isSub).1 = cand (mkBaseName room base) k := by
  cases isSub with
  | true => exact ⟨0, by simp [generateUniqueName, cand]⟩
  | false =>
    cases uuid with
    | none =>
      obtain ⟨j, _, he⟩ := tryFrom_is_cand s.usedNames (mkBaseName room base)
        (s.usedNames.length + 1) 0
      exact ⟨j, by simpa [generateUniqueName] using he⟩
    | some u =>
      by_cases hu : u = ""
      · obtain ⟨j, _, he⟩ := tryFrom_is_cand s.usedNames (mkBaseName room base)
          (s.usedNames.length + 1) 0
        exact ⟨j, by simpa [generateUniqueName, hu] using he⟩
      · obtain ⟨j, _, he⟩ := tryFrom_is_cand s.usedNames (mkBaseName room base)
          (s.usedNames.length + 1) 0
        exact ⟨j, by simpa [generateUniqueName, hu, hfresh u rfl] using he⟩

/-- **C8.**  Sanitization: every name minted by `generateUniqueName` is free of
parentheses; the room prefix is not added again when the sanitized base
already starts with the sanitized room (case-insensitively); and the concrete
round-trip of the claim — room `"Living Room"`, base `"Living Room (MH06)"` —
resolves to `"Living Room MH06"`: a single `"Living Room"` prefix, no
parentheses. -/
theorem c8_sanitization :
    (∀ (s : GenState) (room base : String) (uuid : Option String) (isSub : Bool),
      (∀ u, uuid = some u → lookupA s.accessoryNameMap u = none) →
      '(' ∉ (generateUniqueName s room base uuid isSub).1 ∧
      ')' ∉ (generateUniqueName s room base uuid isSub).1) ∧
    (∀ room base : String,
      ((cleanName (orDefault room "Unknown")).map Char.toLower).isPrefixOf
          ((cleanName (orDefault base "Unnamed")).map Char.toLower) = true →
      mkBaseName room base = cleanName (orDefault base "Unnamed")) ∧
    (generateUniqueName freshSession "Living Room" "Living Room (MH06)"
        (some "intercom-uuid") false).1 = "Living Room MH06".data := by
  refine ⟨?_, ?_, by decide⟩
  · intro s room base uuid isSub hfresh
    obtain ⟨k, hk⟩ := gen_shape s room base uuid isSub hfresh
    rw [hk]
    exact cand_no_paren _ _ (mkBaseName_no_paren room base)
  · intro room base hpre
    unfold mkBaseName
    rw [if_pos (by rw [hpre]; rfl)]

theorem c8_witness :
    '(' ∉ (generateUniqueName freshSession "Living Room" "Living Room (MH06)"
        (some "intercom-uuid") false).1 :=
  ((c8_sanitization.1 freshSession "Living Room" "Living Room (MH06)"
    (some "intercom-uuid") false
    (fun u _ => by simp [freshSession, lookupA])).1)

/-! ## MP4 atoms and the fragment assembler (`RecordingDelegate.consumeFragments`)

Source:
```
let moof: Buffer | null = null;
let pending: Buffer[] = [];
for await (const atom of generator) {
  pending.push(atom.header, atom.data);
  if (atom.type === 'moov') {
    yield Buffer.concat(pending); pending = [];
  } else if (atom.type === 'moof') {
    moof = Buffer.concat([atom.header, atom.data]);
  } else if (atom.type === 'mdat' && moof) {
    yield Buffer.concat([moof, atom.header, atom.data]); moof = null;
  }
}
```
-/

/-- A parsed box: 8-byte header, declared length (signed 32-bit read), 4-char
type tag, payload bytes. -/
structure MP4Atom where
  header : List Nat
  length : Int
  type : String
  data : List Nat
  deriving DecidableEq, Repr

/-- Loop state of `consumeFragments`: the pending unconsumed `moof` bytes and
the accumulated `pending` buffer list. -/
structure ConsumeState where
  moofBuf : Option (List Nat)
  pending : List (List Nat)
  deriving DecidableEq, Repr

/-- One iteration of the `consumeFragments` loop: returns the successor state
and the packets yielded for this atom. -/
def consumeStep (s : ConsumeState) (a : MP4Atom) : ConsumeState × List (List Nat) :=
  let pending := s.pending ++ [a.header, a.data]
  if a.type = "moov" then
    ({ moofBuf := s.moofBuf, pending := [] }, [pending.flatten])
  else if a.type = "moof" then
    ({ moofBuf := some (a.header ++ a.data), pending := pending }, [])
  else if a.type = "mdat" then
    match s.moofBuf with
    | some m => ({ moofBuf := none, pending := pending }, [m ++ a.header ++ a.data])
    | none => ({ moofBuf := none, pending := pending }, [])
  else
    ({ moofBuf := s.moofBuf, pending := pending }, [])

/-- The packets yielded by the loop over a whole atom sequence. -/
def consumeRun : ConsumeState → List MP4Atom → List (List Nat)
  | _, [] => []
  | s, a :: as => (consumeStep s a).2 ++ consumeRun (consumeStep s a).1 as

/-- `consumeFragments` applied to the atom stream of one recording session. -/
def consumeFragments (atoms : List MP4Atom) : List (List Nat) :=
  consumeRun ⟨none, []⟩ atoms

/-- **C3.**  Fragment pairing: the box sequence
`[ftyp, moov, moof, mdat, moof, mdat]` yields exactly one combined header
packet (`ftyp`+`moov` bytes) followed by exactly two packets, each the byte
concatenation of its `moof` box and the following `mdat` box; and in any state
with no unconsumed `moof`, an `mdat` box yields no packet (it is dropped). -/
theorem c3_fragment_pairing :
    (∀ a1 a2 a3 a4 a5 a6 : MP4Atom,
      a1.type = "ftyp" → a2.type = "moov" → a3.type = "moof" → a4.type = "mdat" →
      a5.type = "moof" → a6.type = "mdat" →
      consumeFragments [a1, a2, a3, a4, a5, a6] =
        [a1.header ++ a1.data ++ a2.header ++ a2.data,
         a3.header ++ a3.data ++ a4.header ++ a4.data,
         a5.header ++ a5.data ++ a6.header ++ a6.data]) ∧
    (∀ (s : ConsumeState) (a : MP4Atom), s.moofBuf = none → a.type = "mdat" →
      (consumeStep s a).2 = []) := by
  constructor
  · intro a1 a2 a3 a4 a5 a6 h1 h2 h3 h4 h5 h6
    simp [consumeFragments, consumeRun, consumeStep, h1, h2, h3, h4, h5, h6]
  · intro s a hm ht
    simp [consumeStep, hm, ht]

/-- A concrete `ftyp` box. -/
def atomFtyp : MP4Atom := ⟨[0, 0, 0, 9, 102, 116, 121, 112], 9, "ftyp", [1]⟩

/-- A concrete `moov` box. -/
def atomMoov : MP4Atom := ⟨[0, 0, 0, 10, 109, 111, 111, 118], 10, "moov", [2, 3]⟩

/-- A concrete `moof` box. -/
def atomMoof : MP4Atom := ⟨[0, 0, 0, 9, 109, 111, 111, 102], 9, "moof", [4]⟩

/-- A concrete `mdat` box. -/
def atomMdat : MP4Atom := ⟨[0, 0, 0, 9, 109, 100, 97, 116], 9, "mdat", [5]⟩

theorem c3_witness :
    consumeFragments [atomFtyp, atomMoov, atomMoof, atomMdat, atomMoof, atomMdat] =
      [atomFtyp.header ++ atomFtyp.data ++ atomMoov.header ++ atomMoov.data,
       atomMoof.header ++ atomMoof.data ++ atomMdat.header ++ atomMdat.data,
       atomMoof.header ++ atomMoof.data ++ atomMdat.header ++ atomMdat.data] :=
  c3_fragment_pairing.1 atomFtyp atomMoov atomMoof atomMdat atomMoof atomMdat
    rfl rfl rfl rfl rfl rfl

/-! ## The sliding prebuffer (`PreBuffer.handleAtom`)

Source:
```
this.prebufferFmp4.push({ atom, time: timestamp });
const minTime = timestamp - this.prebufferDuration;
while (this.prebufferFmp4.length && this.prebufferFmp4[0].time < minTime) {
  this.prebufferFmp4.shift();
}
while (this.prebufferFmp4.length > MAX_FRAGMENTS) {
  this.prebufferFmp4.shift();
}
```
with `MAX_FRAGMENTS = 300` and constructor default `prebufferDurationMs = 15000`.
-/

/-- A buffered fragment with its capture time. -/
structure PrebufferFmp4 where
  atom : MP4Atom
  time : Int
  deriving DecidableEq, Repr

/-- `MAX_FRAGMENTS`. -/
def maxFragments : Nat := 300

/-- `prebufferDurationMs` constructor default. -/
def defaultPrebufferDuration : Int := 15000

/-- Age eviction: shift from the front while the head is older than `minTime`. -/
def evictAge (minTime : Int) : List PrebufferFmp4 → List PrebufferFmp4
  | [] => []
  | f :: rest => if f.time < minTime then evictAge minTime rest else f :: rest

/-- Count eviction: shift from the front while more than `maxFragments` remain. -/
def evictCount : List PrebufferFmp4 → List PrebufferFmp4
  | [] => []
  | f :: rest => if rest.length + 1 > maxFragments then evictCount rest else f :: rest

/-- `PreBuffer.handleAtom`: append the new fragment, then age-evict, then
count-evict. -/
def handleAtom (prebufferDuration : Int) (buf : List PrebufferFmp4)
    (a : MP4Atom) (timestamp : Int) : List PrebufferFmp4 :=
  evictCount (evictAge (timestamp - prebufferDuration) (buf ++ [⟨a, timestamp⟩]))

theorem evictAge_sorted (m : Int) :
    ∀ (l : List PrebufferFmp4), l.Pairwise (fun f g => f.time ≤ g.time) →
      evictAge m l = l.filter (fun f => !decide (f.time < m))
  | [], _ => rfl
  | f :: rest, hp => by
    obtain ⟨hf, hrest⟩ := List.pairwise_cons.mp hp
    by_cases hm : f.time < m
    · rw [evictAge, if_pos hm, List.filter_cons_of_neg (by simpa using hm)]
      exact evictAge_sorted m rest hrest
    · rw [evictAge, if_neg hm, List.filter_cons_of_pos (by simpa using hm)]
      congr 1
      rw [List.filter_eq_self.mpr]
      intro g hg
      have : f.time ≤ g.time := hf g hg
      simp only [Bool.not_eq_eq_eq_not, Bool.not_true, decide_eq_false_iff_not]
      omega

theorem evictCount_eq_drop :
    ∀ l : List PrebufferFmp4, evictCount l = l.drop (l.length - maxFragments)
  | [] => rfl
  | f :: rest => by
    by_cases hlen : rest.length + 1 > maxFragments
    · rw [evictCount, if_pos hlen, evictCount_eq_drop rest]
      have h1 : (f :: rest).length - maxFragments = (rest.length - maxFragments) + 1 := by
        simp only [List.length_cons]
        omega
      rw [h1, List.drop_succ_cons]
    · rw [evictCount, if_neg hlen]
      have h1 : (f :: rest).length - maxFragments = 0 := by
        simp only [List.length_cons]
        omega
      rw [h1, List.drop_zero]

/-- **C4.**  Prebuffer eviction: every insertion first drops fragments older
than `timestamp - retention window` from the front (for time-ordered buffers
this keeps exactly the recent-enough fragments), then drops from the front
until at most 300 fragments remain; with a 1000 ms window and insertions at
times 0, 500, 1200, 1800, exactly the fragments stamped 1200 and 1800
survive the last insertion. -/
theorem c4_prebuffer_eviction :
    (∀ (buf : List PrebufferFmp4) (a : MP4Atom) (t d : Int),
      (buf ++ [(⟨a, t⟩ : PrebufferFmp4)]).Pairwise (fun f g => f.time ≤ g.time) →
      handleAtom d buf a t =
        ((buf ++ [(⟨a, t⟩ : PrebufferFmp4)]).filter
            (fun f => !decide (f.time < t - d))).drop
          (((buf ++ [(⟨a, t⟩ : PrebufferFmp4)]).filter
            (fun f => !decide (f.time < t - d))).length - maxFragments)) ∧
    (∀ a1 a2 a3 a4 : MP4Atom,
      (handleAtom 1000 (handleAtom 1000 (handleAtom 1000 (handleAtom 1000 [] a1 0)
          a2 500) a3 1200) a4 1800).map PrebufferFmp4.time = [1200, 1800]) := by
  constructor
  · intro buf a t d hp
    rw [handleAtom, evictAge_sorted _ _ hp, evictCount_eq_drop]
  · intro a1 a2 a3 a4
    simp [handleAtom, evictAge, evictCount, maxFragments]

theorem c4_witness :
    handleAtom 1000 [] atomMoof 5 =
      ((([] : List PrebufferFmp4) ++ [(⟨atomMoof, 5⟩ : PrebufferFmp4)]).filter
          (fun f => !decide (f.time < 5 - 1000))).drop
        (((([] : List PrebufferFmp4) ++ [(⟨atomMoof, 5⟩ : PrebufferFmp4)]).filter
          (fun f => !decide (f.time < 5 - 1000))).length - maxFragments) :=
  c4_prebuffer_eviction.1 [] atomMoof 5 1000 (by simp)

/-! ## The length-prefixed box reader (`readLength` / `parseFragmentedMP4`)

Source:
```
while (true) {
  let header;
  try { header = await readLength(readable, 8); } catch (err) { break; }
  const length = header.readInt32BE(0) - 8;
  const type = header.slice(4).toString();
  const data = await readLength(readable, length);   // NOT wrapped in try
  yield { header, length, type, data };
}
```
`readLength` resolves with exactly `length` bytes or rejects when the stream
ends first.  Only the 8-byte header read is guarded: a rejection there ends the
generator normally (`break`); a rejection while reading the payload (or a
negative requested length, for which `read()` keeps returning `null` until the
stream ends) escapes the generator as a thrown error.
-/

/-- How a parse of a byte stream ends: normal end-of-stream (the guarded
header read rejected) or a thrown error escaping the generator. -/
inductive ParseEnd where
  | eos
  | fault
  deriving DecidableEq, Repr

/-- `Buffer.readInt32BE(0)` on the four leading bytes. -/
def int32BE (b0 b1 b2 b3 : Nat) : Int :=
  let v := ((b0 * 256 + b1) * 256 + b2) * 256 + b3
  if v < 2 ^ 31 then (v : Int) else (v : Int) - 2 ^ 32

/-- `header.slice(4).toString()`: the 4 type-tag bytes decoded as characters. -/
def boxType (header : List Nat) : String :=
  String.mk (((header.drop 4).take 4).map Char.ofNat)

/-- Fuelled run of the `parseFragmentedMP4` loop over a byte stream: returns
the atoms yielded and how the generator ended.  Fuel `(stream length)` always
suffices since every iteration consumes at least 8 bytes. -/
def parseCore : Nat → List Nat → List MP4Atom × ParseEnd
  | 0, _ => ([], ParseEnd.eos)
  | fuel + 1, s =>
    if s.length < 8 then ([], ParseEnd.eos)
    else
      let header := s.take 8
      let len : Int := int32BE (s.getD 0 0) (s.getD 1 0) (s.getD 2 0) (s.getD 3 0) - 8
      let rest := s.drop 8
      if len = 0 then
        let r := parseCore fuel rest
        (⟨header, len, boxType header, []⟩ :: r.1, r.2)
      else if len < 0 then ([], ParseEnd.fault)
      else if (rest.length : Int) < len then ([], ParseEnd.fault)
      else
        let r := parseCore fuel (rest.drop len.toNat)
        (⟨header, len, boxType header, rest.take len.toNat⟩ :: r.1, r.2)

/-- `parseFragmentedMP4` applied to a complete (finite) byte stream. -/
def parseFragmentedMP4 (s : List Nat) : List MP4Atom × ParseEnd :=
  parseCore s.length s

/-- **C6 counterexample.**  A box declaring 16 total bytes (8 payload bytes)
followed by only 2 payload bytes: the payload read rejects outside the
`try`/`catch`, so the generator ends in a thrown fault, not in the
end-of-stream completion the claim requires for every framing failure. -/
theorem c6_counterexample :
    parseFragmentedMP4 [0, 0, 0, 16, 102, 116, 121, 112, 1, 2] =
      ([], ParseEnd.fault) ∧ ParseEnd.fault ≠ ParseEnd.eos := by
  constructor
  · rfl
  · decide

/-- **C6** (amended).  Only the header read is guarded: a truncated 8-byte box
header terminates `parseFragmentedMP4` as normal end-of-stream, while a
payload shorter than the declared `length - 8` (a framing failure inside a
box) surfaces as a thrown error to the immediate caller, not as
end-of-stream. -/
theorem c6_framing_termination :
    (∀ s : List Nat, s.length < 8 → parseFragmentedMP4 s = ([], ParseEnd.eos)) ∧
    (∀ s : List Nat, 8 ≤ s.length →
      0 < int32BE (s.getD 0 0) (s.getD 1 0) (s.getD 2 0) (s.getD 3 0) - 8 →
      ((s.drop 8).length : Int) <
          int32BE (s.getD 0 0) (s.getD 1 0) (s.getD 2 0) (s.getD 3 0) - 8 →
      parseFragmentedMP4 s = ([], ParseEnd.fault)) := by
  constructor
  · intro s hs
    rw [parseFragmentedMP4]
    cases hl : s.length with
    | zero => rfl
    | succ n =>
      rw [parseCore, if_pos hs]
  · intro s hs hpos hshort
    rw [parseFragmentedMP4]
    obtain ⟨n, hn⟩ : ∃ n, s.length = n + 1 := ⟨s.length - 1, by omega⟩
    rw [hn, parseCore, if_neg (by omega)]
    simp only
    rw [if_neg (by omega), if_neg (by omega), if_pos hshort]

theorem c6_witness :
    parseFragmentedMP4 [0, 0, 0, 12, 109, 100, 97, 116, 7] = ([], ParseEnd.fault) :=
  c6_framing_termination.2 [0, 0, 0, 12, 109, 100, 97, 116, 7] (by decide)
    (by decide) (by decide)

/-! ## Recording stream request (`handleRecordingStreamRequest`)

Source:
```
const config = this.currentRecordingConfiguration;
if (!config) { this.log.error('Missing recording config', ...); return; }
...
for await (const fragment of this.consumeFragments(generator, cp, streamId)) {
  if (abortController.signal.aborted) break;
  yield { data: fragment, isLast: false };
}
} catch (err) {
  yield { data: Buffer.alloc(0), isLast: true };
}
```
-/

/-- The negotiated recording configuration (only its presence matters here). -/
structure RecordingConfig where
  fragmentLength : Nat
  deriving DecidableEq, Repr

/-- A packet yielded to HomeKit by the recording request generator. -/
structure RecordingPacket where
  data : List Nat
  isLast : Bool
  deriving DecidableEq, Repr

/-- The packet sequence yielded by `handleRecordingStreamRequest`: with no
negotiated configuration the generator returns at once (no packets at all);
otherwise it yields one non-terminal packet per assembled fragment and, if the
session fails mid-stream, the single empty terminal packet of the `catch`
branch. -/
def recordingStreamPackets (config : Option RecordingConfig)
    (fragments : List (List Nat)) (streamError : Bool) : List RecordingPacket :=
  match config with
  | none => []
  | some _ =>
    (fragments.map fun f => ⟨f, false⟩) ++
      (if streamError then [⟨[], true⟩] else [])

/-- **C5 counterexample.**  With no negotiated recording configuration the
generator yields nothing at all — not the single empty terminal packet the
claim describes. -/
theorem c5_counterexample :
    recordingStreamPackets none
      (consumeFragments [atomFtyp, atomMoov, atomMoof, atomMdat]) true = [] ∧
    recordingStreamPackets none
      (consumeFragments [atomFtyp, atomMoov, atomMoof, atomMdat]) true ≠
      [⟨[], true⟩] := by
  constructor
  · rfl
  · decide

/-- **C5** (amended).  If `handleRecordingStreamRequest` is invoked before any
recording configuration has been negotiated, it fails fast by yielding no
packets whatsoever: the generator returns immediately. -/
theorem c5_missing_config_no_packets (fragments : List (List Nat)) (streamError : Bool) :
    recordingStreamPackets none fragments streamError = [] := rfl

/-! ## Stream teardown (`closeRecordingStream`, `consumeFragments` cleanup,
`streamingDelegate.stopStream`)

Source of `closeRecordingStream`:
```
if (!this.streamAbortControllers.has(streamId)) return;
this.streamAbortControllers.get(streamId)?.abort();
this.streamAbortControllers.delete(streamId);
const process = this.activeFFmpegProcesses.get(streamId);
if (process && !process.killed) process.kill('SIGTERM');
this.activeFFmpegProcesses.delete(streamId);
```
Source of the `consumeFragments` `finally` block:
```
if (!cp.killed) { cp.kill('SIGTERM'); await new Promise(r => cp.once('exit', r)); }
this.activeFFmpegProcesses.delete(streamId);
```
-/

/-- Signals this code can send to a subprocess. -/
inductive Sig where
  | sigterm
  | sigkill
  deriving DecidableEq, Repr

/-- Observable state of a child process handle. -/
structure ProcState where
  killed : Bool
  deriving DecidableEq, Repr

/-- Registries of `RecordingDelegate`: `streamAbortControllers` (presence plus
abort flag is all the invariants need, so presence as `Bool`) and
`activeFFmpegProcesses`. -/
structure RecDelegateState where
  controllers : Nat → Bool
  processes : Nat → Option ProcState

/-- Externally visible teardown actions, in program order. -/
inductive RecAction where
  | abortStream (id : Nat)
  | sendSignal (id : Nat) (s : Sig)
  | waitExit (id : Nat)
  deriving DecidableEq, Repr

/-- `RecordingDelegate.closeRecordingStream(streamId)`: successor state plus
the teardown actions performed. -/
def closeRecordingStream (st : RecDelegateState) (id : Nat) :
    RecDelegateState × List RecAction :=
  if st.controllers id then
    (⟨fun k => if k = id then false else st.controllers k,
      fun k => if k = id then none else st.processes k⟩,
     RecAction.abortStream id ::
       (match st.processes id with
        | some p => if p.killed then [] else [RecAction.sendSignal id Sig.sigterm]
        | none => []))
  else (st, [])

/-- The `finally` block of `consumeFragments` for the generator's own child
process `cp`: graceful `SIGTERM`, unbounded wait for exit, registry cleanup. -/
def consumeCleanup (st : RecDelegateState) (id : Nat) (cp : ProcState) :
    RecDelegateState × List RecAction :=
  (⟨st.controllers, fun k => if k = id then none else st.processes k⟩,
   if cp.killed then [] else [RecAction.sendSignal id Sig.sigterm, RecAction.waitExit id])

/-- **C7** (amended).  On close or on loop termination the subprocess is
terminated with a single graceful `SIGTERM` and the stream's entry leaves the
active-process registry; no forced kill (`SIGKILL`) is ever issued and the
consume path waits for exit without any bounded grace period. -/
theorem c7_graceful_termination_and_cleanup :
    (∀ (st : RecDelegateState) (id : Nat) (p : ProcState),
      st.controllers id = true → st.processes id = some p → p.killed = false →
      (closeRecordingStream st id).2 =
        [RecAction.abortStream id, RecAction.sendSignal id Sig.sigterm] ∧
      (closeRecordingStream st id).1.controllers id = false ∧
      (closeRecordingStream st id).1.processes id = none ∧
      RecAction.sendSignal id Sig.sigkill ∉ (closeRecordingStream st id).2) ∧
    (∀ (st : RecDelegateState) (id : Nat) (cp : ProcState), cp.killed = false →
      (consumeCleanup st id cp).2 =
        [RecAction.sendSignal id Sig.sigterm, RecAction.waitExit id] ∧
      (consumeCleanup st id cp).1.processes id = none ∧
      RecAction.sendSignal id Sig.sigkill ∉ (consumeCleanup st id cp).2) := by
  constructor
  · intro st id p hc hp hk
    refine ⟨by simp [closeRecordingStream, hc, hp, hk], by simp [closeRecordingStream, hc],
      by simp [closeRecordingStream, hc], ?_⟩
    simp [closeRecordingStream, hc, hp, hk]
  · intro st id cp hk
    exact ⟨by simp [consumeCleanup, hk], by simp [consumeCleanup],
      by simp [consumeCleanup, hk]⟩

/-- A concrete delegate state: stream 1 active with a live subprocess. -/
def recSt1 : RecDelegateState :=
  ⟨fun k => k == 1, fun k => if k == 1 then some ⟨false⟩ else none⟩

/-- **C7 counterexample.**  Closing active stream 1 performs the complete
teardown trace `[abort, SIGTERM]` for a live subprocess — there is no
forced-kill escalation after any grace period, contrary to the claim. -/
theorem c7_counterexample :
    (closeRecordingStream recSt1 1).2 =
      [RecAction.abortStream 1, RecAction.sendSignal 1 Sig.sigterm] ∧
    RecAction.sendSignal 1 Sig.sigkill ∉ (closeRecordingStream recSt1 1).2 := by
  constructor
  · rfl
  · decide

theorem c7_witness :
    (closeRecordingStream recSt1 1).2 =
      [RecAction.abortStream 1, RecAction.sendSignal 1 Sig.sigterm] :=
  ((c7_graceful_termination_and_cleanup.1 recSt1 1 ⟨false⟩ rfl rfl rfl).1)

/-! ### `streamingDelegate.stopStream`

Source:
```
const session = this.ongoingSessions[sessionId];
if (session) {
  session.timeout && clearTimeout(session.timeout);
  session.socket?.close();
  session.mainProcess?.stop();
  session.returnProcess?.stop();
  delete this.ongoingSessions[sessionId];
}
```
-/

/-- The optional resources owned by one ongoing live-streaming session. -/
structure ActiveSession where
  hasTimeout : Bool
  hasSocket : Bool
  hasMain : Bool
  hasReturn : Bool
  deriving DecidableEq, Repr

/-- Resource-release actions of `stopStream`. -/
inductive StopAction where
  | clearTimer
  | closeSocket
  | stopMainProc
  | stopReturnProc
  deriving DecidableEq, Repr

/-- The `ongoingSessions` registry of `streamingDelegate`. -/
structure StreamingState where
  ongoingSessions : String → Option ActiveSession

/-- `streamingDelegate.stopStream(sessionId)`: successor state plus the
release actions performed. -/
def stopStream (st : StreamingState) (id : String) :
    StreamingState × List StopAction :=
  match st.ongoingSessions id with
  | none => (st, [])
  | some sess =>
    (⟨fun k => if k = id then none else st.ongoingSessions k⟩,
     (if sess.hasTimeout then [StopAction.clearTimer] else []) ++
       (if sess.hasSocket then [StopAction.closeSocket] else []) ++
       (if sess.hasMain then [StopAction.stopMainProc] else []) ++
       (if sess.hasReturn then [StopAction.stopReturnProc] else []))

/-- **C9.**  Idempotent stop: `stopStream` and `closeRecordingStream` on an
unknown id are no-ops returning no release actions, and a second call for the
same id is always a no-op releasing nothing again. -/
theorem c9_idempotent_stop :
    (∀ (st : StreamingState) (id : String), st.ongoingSessions id = none →
      stopStream st id = (st, [])) ∧
    (∀ (st : StreamingState) (id : String),
      stopStream (stopStream st id).1 id = ((stopStream st id).1, [])) ∧
    (∀ (st : RecDelegateState) (id : Nat), st.controllers id = false →
      closeRecordingStream st id = (st, [])) ∧
    (∀ (st : RecDelegateState) (id : Nat),
      closeRecordingStream (closeRecordingStream st id).1 id =
        ((closeRecordingStream st id).1, [])) := by
  refine ⟨?_, ?_, ?_, ?_⟩
  · intro st id h
    simp [stopStream, h]
  · intro st id
    cases h : st.ongoingSessions id with
    | none => simp [stopStream, h]
    | some sess => simp [stopStream, h]
  · intro st id h
    simp [closeRecordingStream, h]
  · intro st id
    by_cases h : st.controllers id = true
    · simp [closeRecordingStream, h]
    · simp only [Bool.not_eq_true] at h
      simp [closeRecordingStream, h]

/-- A concrete streaming state: session `"s1"` active with all resources. -/
def strSt1 : StreamingState :=
  ⟨fun k => if k = "s1" then some ⟨true, true, true, false⟩ else none⟩

theorem c9_witness :
    stopStream strSt1 "nope" = (strSt1, []) ∧
    stopStream (stopStream strSt1 "s1").1 "s1" = ((stopStream strSt1 "s1").1, []) ∧
    closeRecordingStream recSt1 7 = (recSt1, []) :=
  ⟨c9_idempotent_stop.1 strSt1 "nope" (by simp [strSt1]),
   c9_idempotent_stop.2.1 strSt1 "s1",
   c9_idempotent_stop.2.2.1 recSt1 7 (by simp [recSt1])⟩

/-! ## Lifecycle of the `streamAbortControllers` registry (`isActive`)

`handleRecordingStreamRequest` registers the stream's `AbortController` right
after the configuration check and removes it in its `finally`;
`closeRecordingStream` aborts and removes it; `isActive()` reports
`streamAbortControllers.size > 0`.  The single-threaded event loop is modelled
as a trace of atomic events over per-stream request phases. -/

/-- Phase of one recording request: not yet started / generator running with
its controller registered / closed by `closeRecordingStream` but generator not
yet resumed / finished. -/
inductive SessPhase where
  | idle
  | running
  | closing
  | done
  deriving DecidableEq, Repr

/-- Abstract state of `RecordingDelegate` for registry-lifecycle reasoning:
the negotiated-configuration flag, each stream's request phase, and the
`streamAbortControllers` key set. -/
structure HksvState where
  config : Bool
  phase : Nat → SessPhase
  registered : Nat → Bool

/-- The delegate state at construction. -/
def hksvInit : HksvState := ⟨false, fun _ => SessPhase.idle, fun _ => false⟩

/-- Atomic events of the single-threaded event loop. -/
inductive HksvEvent where
  | setConfig (b : Bool)
  | startRequest (id : Nat)
  | finishRequest (id : Nat)
  | closeStream (id : Nat)
  | resumeAfterClose (id : Nat)
  deriving DecidableEq, Repr

/-- Guards: a request starts once per stream id, the generator's `finally` runs
when the generator is running, and an aborted generator resumes once. -/
def hksvValid (st : HksvState) : HksvEvent → Bool
  | .setConfig _ => true
  | .startRequest id => st.phase id == SessPhase.idle
  | .finishRequest id => st.phase id == SessPhase.running
  | .closeStream _ => true
  | .resumeAfterClose id => st.phase id == SessPhase.closing

/-- Transition function.  `startRequest`: with no configuration the generator
returns before registering anything (phase → `done`); otherwise it registers
the controller (phase → `running`).  `finishRequest`: the `finally` block
removes the entry.  `closeStream`: `closeRecordingStream` removes the entry of
a registered stream and aborts it (phase → `closing`), and is a no-op
otherwise.  `resumeAfterClose`: the aborted generator's `finally` deletes the
already-absent entry. -/
def hksvStep (st : HksvState) : HksvEvent → HksvState
  | .setConfig b => ⟨b, st.phase, st.registered⟩
  | .startRequest id =>
    if st.config then
      ⟨st.config, fun k => if k = id then SessPhase.running else st.phase k,
        fun k => if k = id then true else st.registered k⟩
    else
      ⟨st.config, fun k => if k = id then SessPhase.done else st.phase k, st.registered⟩
  | .finishRequest id =>
    ⟨st.config, fun k => if k = id then SessPhase.done else st.phase k,
      fun k => if k = id then false else st.registered k⟩
  | .closeStream id =>
    if st.registered id then
      ⟨st.config, fun k => if k = id then SessPhase.closing else st.phase k,
        fun k => if k = id then false else st.registered k⟩
    else st
  | .resumeAfterClose id =>
    ⟨st.config, fun k => if k = id then SessPhase.done else st.phase k, st.registered⟩

/-- A whole trace is valid when every event is valid in the state it meets. -/
def hksvValidTrace : HksvState → List HksvEvent → Bool
  | _, [] => true
  | st, e :: es => hksvValid st e && hksvValidTrace (hksvStep st e) es

/-- Run a trace. -/
def hksvRunFrom : HksvState → List HksvEvent → HksvState
  | st, [] => st
  | st, e :: es => hksvRunFrom (hksvStep st e) es

/-- `isActive()`, i.e. `streamAbortControllers.size > 0`: a JS `Map` has
positive size exactly when some key is present. -/
def hksvIsActive (st : HksvState) : Prop :=
  ∃ id, st.registered id = true

/-- The registry invariant: a stream id is registered exactly while its
request generator is running (started with a configuration, neither finished
nor closed). -/
def hksvInv (st : HksvState) : Prop :=
  ∀ id, st.registered id = true ↔ st.phase id = SessPhase.running

theorem hksvStep_inv (st : HksvState) (e : HksvEvent)
    (hinv : hksvInv st) (hv : hksvValid st e = true) : hksvInv (hksvStep st e) := by
  cases e with
  | setConfig b => exact hinv
  | startRequest id =>
    have hidle : st.phase id = SessPhase.idle := by
      simpa [hksvValid] using hv
    by_cases hc : st.config = true
    · intro k
      by_cases hk : k = id <;> simp [hksvStep, hc, hk, hinv k]
    · simp only [Bool.not_eq_true] at hc
      intro k
      by_cases hk : k = id
      · subst hk
        simp [hksvStep, hc, hidle]
        have hnr : ¬st.registered k = true := fun hreg => by
          rw [(hinv k).mp hreg] at hidle
          exact SessPhase.noConfusion hidle
        simpa using hnr
      · simp [hksvStep, hc, hk, hinv k]
  | finishRequest id =>
    intro k
    by_cases hk : k = id <;> simp [hksvStep, hk, hinv k]
  | closeStream id =>
    by_cases hr : st.registered id = true
    · intro k
      by_cases hk : k = id <;> simp [hksvStep, hr, hk, hinv k]
    · simp only [Bool.not_eq_true] at hr
      simpa [hksvStep, hr] using hinv
  | resumeAfterClose id =>
    have hcl : st.phase id = SessPhase.closing := by
      simpa [hksvValid] using hv
    intro k
    by_cases hk : k = id
    · subst hk
      simp [hksvStep]
      have hnr : ¬st.registered k = true := fun hreg => by
        rw [(hinv k).mp hreg] at hcl
        exact SessPhase.noConfusion hcl
      simpa using hnr
    · simp [hksvStep, hk, hinv k]

theorem hksvRunFrom_inv :
    ∀ (evs : List HksvEvent) (st : HksvState), hksvInv st →
      hksvValidTrace st evs = true → hksvInv (hksvRunFrom st evs)
  | [], st, hinv, _ => hinv
  | e :: es, st, hinv, hv => by
    rw [hksvValidTrace, Bool.and_eq_true] at hv
    exact hksvRunFrom_inv es (hksvStep st e) (hksvStep_inv st e hinv hv.1) hv.2

/-- **C10.**  Along every valid event trace from the delegate's initial state,
a stream id is present in `streamAbortControllers` exactly while its recording
request generator is running, so `isActive()` holds exactly when at least one
recording request is in progress — the signal the motion sensor's poll loop
reads to suppress snapshot polling during HKSV recording. -/
theorem c10_registry_invariant (evs : List HksvEvent)
    (hv : hksvValidTrace hksvInit evs = true) :
    hksvInv (hksvRunFrom hksvInit evs) ∧
    (hksvIsActive (hksvRunFrom hksvInit evs) ↔
      ∃ id, (hksvRunFrom hksvInit evs).phase id = SessPhase.running) := by
  have hinv : hksvInv (hksvRunFrom hksvInit evs) :=
    hksvRunFrom_inv evs hksvInit (fun id => by simp [hksvInit]) hv
  refine ⟨hinv, ?_⟩
  constructor
  · rintro ⟨id, hid⟩
    exact ⟨id, (hinv id).mp hid⟩
  · rintro ⟨id, hid⟩
    exact ⟨id, (hinv id).mpr hid⟩

/-- A concrete valid trace: configuration negotiated, stream 1 started and
closed by the host, its generator resumed, then stream 2 started. -/
def hksvTrace1 : List HksvEvent :=
  [HksvEvent.setConfig true, HksvEvent.startRequest 1, HksvEvent.closeStream 1,
   HksvEvent.resumeAfterClose 1, HksvEvent.startRequest 2]

theorem c10_witness :
    (hksvRunFrom hksvInit hksvTrace1).registered 2 = true ↔
      (hksvRunFrom hksvInit hksvTrace1).phase 2 = SessPhase.running :=
  (c10_registry_invariant hksvTrace1 (by decide)).1 2

end LoxoneProxy
